import Mathlib

/-!
Verification of the AeroDyn/TurbSim binary codec in pyts/io/aerodyn.py.

The module holds two functions, write and read.  Their arithmetic on
numpy float32 arrays is embedded here over exact rationals; machine
int16 values are embedded as integers together with an explicit
wrap-around into the signed 16-bit range, which is the effect of the
numpy astype(int16) cast on the (moderately) out-of-range values that
actually arise in this code.  Files are byte lists; float32 header
fields are carried as their 32-bit patterns where only the byte layout
matters, and as exact rationals where their value matters.
-/

namespace Aerodyn

/-- Constant intmin = -32768 from write. -/
def intmin : ℤ := -32768

/-- Constant intrng = 65536 from write. -/
def intrng : ℚ := 65536

/-- Per-component scale from write: u_scl = 1 when the component minimum
equals its maximum, else intrng / (max - min). -/
def u_scl (mn mx : ℚ) : ℚ := if mn = mx then 1 else intrng / (mx - mn)

/-- Per-component offset from write: u_off = intmin - u_scl * min
(computed in both branches of the min = max test).  This is the exact
rational value; the value the source actually stores in the float32
array u_off is its float32 rounding u_off32 below, which coincides with
it at every input where the exact value is float32-representable. -/
def u_off (mn mx : ℚ) : ℚ := (intmin : ℚ) - u_scl mn mx * mn

/-- Truncation toward zero: the float-to-integer conversion performed by
the numpy astype cast in write. -/
def truncToZero (q : ℚ) : ℤ := if 0 ≤ q then ⌊q⌋ else ⌈q⌉

/-- Reduction of an integer into the signed 16-bit range [-32768, 32767]
modulo 2^16: the effect of the int16 cast in write on values outside
that range. -/
def wrap16 (n : ℤ) : ℤ := (n + 32768) % 65536 - 32768

/-- Quantization of one sample, from write:
out[ind] = (ts[ind] * u_scl[ind] + u_off[ind]).astype(np.int16). -/
def quantize (mn mx x : ℚ) : ℤ := wrap16 (truncToZero (x * u_scl mn mx + u_off mn mx))

/-- Dequantization of one stored code, from read:
out = (data - u_off) / u_scl. -/
def dequantize (scl off : ℚ) (q : ℤ) : ℚ := ((q : ℚ) - off) / scl

/-- Number of int16 grid samples in the data block, nbt = 3 * n_y * n_z * n_t
from read. -/
def nbt (n_y n_z n_t : ℕ) : ℕ := 3 * n_y * n_z * n_t

/-- Position in the on-disk data block holding component c, y-index iy,
file z-row jz, time it: component varies fastest, then y, then z, then
time (the F-order flattening performed by write). -/
def diskIdx (n_y n_z c iy jz it : ℕ) : ℕ := c + 3 * (iy + n_y * (jz + n_z * it))

/-- The k-th int16 value of the on-disk data block, from write:
np.rollaxis(out[:, ::-1], 2, 1).tostring(order=F) applied to the
quantized tensor out indexed in memory as (component, z, y, time).
Position k holds out[c, n_z-1-jz, iy, it] with c = k mod 3,
iy = k / 3 mod n_y, jz = k / 3 / n_y mod n_z, it = k / 3 / n_y / n_z. -/
def writeFlat (n_y n_z : ℕ) (out : ℕ → ℕ → ℕ → ℕ → ℤ) (k : ℕ) : ℤ :=
  out (k % 3) (n_z - 1 - k / 3 / n_y % n_z) (k / 3 % n_y) (k / 3 / n_y / n_z)

/-- The decoder reordering, from read:
np.rollaxis(reshape([3, n_y, n_z, n_t], order=F), 2, 1)[:, ::-1]:
entry (c, iz, iy, it) of the returned tensor is the data-block value at
position diskIdx c iy (n_z-1-iz) it. -/
def readPerm (n_y n_z : ℕ) (flat : ℕ → ℤ) (c iz iy it : ℕ) : ℤ :=
  flat (diskIdx n_y n_z c iy (n_z - 1 - iz) it)

/-- Sample tensor for the C6 witness, with a distinct value at every
index. -/
def exOut : ℕ → ℕ → ℕ → ℕ → ℤ :=
  fun c iz iy it => (c : ℤ) + 10 * iz + 100 * iy + 1000 * it

/-- Little-endian byte serialization of the low k bytes of a natural
number.  Modelled from the spec: the struct byte-order marker e comes
from pyts.io.base, which is not under src; the spec fixes the header as
a single contiguous packed record in one fixed byte order with standard
sizes (format letters h, l, f as 2, 4, 4 bytes, no padding), which we
take little-endian.  Float32 header fields are carried here as their
opaque 32-bit patterns, since only the byte layout is at stake. -/
def toLE : ℕ → ℕ → List ℕ
  | 0, _ => []
  | k + 1, n => n % 256 :: toLE k (n / 256)

/-- Little-endian byte deserialization. -/
def fromLE (l : List ℕ) : ℕ := l.foldr (fun b acc => b + 256 * acc) 0

/-- The header record at the byte-pattern level: the eighteen fields of
the struct format h4l12fl in the order write packs them and read
unpacks them. -/
structure HeaderW where
  tag : ℕ
  n_z : ℕ
  n_y : ℕ
  n_tower : ℕ
  n_t : ℕ
  dz : ℕ
  dy : ℕ
  dt : ℕ
  uhub : ℕ
  zhub : ℕ
  z0 : ℕ
  scl0 : ℕ
  off0 : ℕ
  scl1 : ℕ
  off1 : ℕ
  scl2 : ℕ
  off2 : ℕ
  strlen : ℕ
  deriving DecidableEq

/-- Header serialization from write: pack(e + h4l12fl, 7, n_z, n_y,
n_tower, n_t, dz, dy, dt, uhub, zhub, z0, scl0, off0, scl1, off1,
scl2, off2, strlen): an int16 tag, four int32 counts, twelve float32
words, one int32 length, packed contiguously. -/
def packHeader (h : HeaderW) : List ℕ :=
  toLE 2 h.tag ++ toLE 4 h.n_z ++ toLE 4 h.n_y ++ toLE 4 h.n_tower ++ toLE 4 h.n_t ++
  toLE 4 h.dz ++ toLE 4 h.dy ++ toLE 4 h.dt ++ toLE 4 h.uhub ++ toLE 4 h.zhub ++
  toLE 4 h.z0 ++ toLE 4 h.scl0 ++ toLE 4 h.off0 ++ toLE 4 h.scl1 ++ toLE 4 h.off1 ++
  toLE 4 h.scl2 ++ toLE 4 h.off2 ++ toLE 4 h.strlen

/-- Header deserialization from read: unpack(e + h4l12fl, fl.read(70)).
struct.unpack raises when fewer than 70 bytes are available (modelled
as none); otherwise the eighteen fields are read back at their fixed
offsets, in the same order write packed them, and the remainder of the
buffer (the rest of the file) follows.  The tag is read but not
examined. -/
def readHeaderBytes (buf : List ℕ) : Option (HeaderW × List ℕ) :=
  if buf.length < 70 then none
  else
    let b1 := buf.drop 2
    let b2 := b1.drop 4
    let b3 := b2.drop 4
    let b4 := b3.drop 4
    let b5 := b4.drop 4
    let b6 := b5.drop 4
    let b7 := b6.drop 4
    let b8 := b7.drop 4
    let b9 := b8.drop 4
    let b10 := b9.drop 4
    let b11 := b10.drop 4
    let b12 := b11.drop 4
    let b13 := b12.drop 4
    let b14 := b13.drop 4
    let b15 := b14.drop 4
    let b16 := b15.drop 4
    let b17 := b16.drop 4
    some (⟨fromLE (buf.take 2), fromLE (b1.take 4), fromLE (b2.take 4), fromLE (b3.take 4),
           fromLE (b4.take 4), fromLE (b5.take 4), fromLE (b6.take 4), fromLE (b7.take 4),
           fromLE (b8.take 4), fromLE (b9.take 4), fromLE (b10.take 4), fromLE (b11.take 4),
           fromLE (b12.take 4), fromLE (b13.take 4), fromLE (b14.take 4), fromLE (b15.take 4),
           fromLE (b16.take 4), fromLE (b17.take 4)⟩, b17.drop 4)

/-- Concrete header for the C9 witness. -/
def exHdr : HeaderW :=
  ⟨7, 5, 4, 0, 6, 11, 12, 13, 14, 15, 16, 21, 22, 23, 24, 25, 26, 9⟩

/-- Concrete header whose format tag is 99, not the constant 7 that
write stores. -/
def hdr99 : HeaderW :=
  ⟨99, 1, 1, 0, 1, 11, 12, 13, 14, 15, 16, 21, 22, 23, 24, 25, 26, 0⟩

/-- Grid and scalar metadata that write copies into the header
(tsdat.grid.n_z, n_y, n_tower, the time dimension of tsdat.shape, and
the six float-valued scalars), float values as exact rationals. -/
structure TSMeta where
  n_z : ℕ
  n_y : ℕ
  n_tower : ℕ
  n_t : ℕ
  dz : ℚ
  dy : ℚ
  dt : ℚ
  uhub : ℚ
  zhub : ℚ
  z0 : ℚ

/-- The header record at the value level, as write fills it and read
unpacks it, float fields as exact rationals. -/
structure HeaderV where
  tag : ℤ
  n_z : ℕ
  n_y : ℕ
  n_tower : ℕ
  n_t : ℕ
  dz : ℚ
  dy : ℚ
  dt : ℚ
  uhub : ℚ
  zhub : ℚ
  z0 : ℚ
  scl0 : ℚ
  off0 : ℚ
  scl1 : ℚ
  off1 : ℚ
  scl2 : ℚ
  off2 : ℚ
  strlen : ℕ

/-- Scale of component c from the header array u_scl. -/
def HeaderV.scl (h : HeaderV) : ℕ → ℚ
  | 0 => h.scl0
  | 1 => h.scl1
  | _ => h.scl2

/-- Offset of component c from the header array u_off. -/
def HeaderV.off (h : HeaderV) : ℕ → ℚ
  | 0 => h.off0
  | 1 => h.off1
  | _ => h.off2

/-- All samples ts[c] of one velocity component, the in-memory tensor
being indexed (component, z, y, time). -/
def compSamples (m : TSMeta) (u : ℕ → ℕ → ℕ → ℕ → ℚ) (c : ℕ) : List ℚ :=
  ((List.range m.n_z).map (fun iz =>
    ((List.range m.n_y).map (fun iy =>
      (List.range m.n_t).map (fun it => u c iz iy it))).flatten)).flatten

/-- Minimum of a numpy array (components are nonempty in practice; 0 on
the empty list, on which numpy min raises). -/
def listMin : List ℚ → ℚ
  | [] => 0
  | x :: xs => xs.foldl min x

/-- Maximum of a numpy array (same convention as listMin). -/
def listMax : List ℚ → ℚ
  | [] => 0
  | x :: xs => xs.foldl max x

/-- ts[ind].min() from write. -/
def compMin (m : TSMeta) (u : ℕ → ℕ → ℕ → ℕ → ℚ) (c : ℕ) : ℚ :=
  listMin (compSamples m u c)

/-- ts[ind].max() from write. -/
def compMax (m : TSMeta) (u : ℕ → ℕ → ℕ → ℕ → ℚ) (c : ℕ) : ℚ :=
  listMax (compSamples m u c)

/-- u_scl[ind] as computed by write from the component range. -/
def sclOf (m : TSMeta) (u : ℕ → ℕ → ℕ → ℕ → ℚ) (c : ℕ) : ℚ :=
  u_scl (compMin m u c) (compMax m u c)

/-- u_off[ind] as computed by write from the component range. -/
def offOf (m : TSMeta) (u : ℕ → ℕ → ℕ → ℕ → ℚ) (c : ℕ) : ℚ :=
  u_off (compMin m u c) (compMax m u c)

/-- The quantized tensor out of write, indexed (component, z, y, time)
like the in-memory velocity tensor. -/
def outQ (m : TSMeta) (u : ℕ → ℕ → ℕ → ℕ → ℚ) (c iz iy it : ℕ) : ℤ :=
  quantize (compMin m u c) (compMax m u c) (u c iz iy it)

/-- The two little-endian bytes of one stored int16 sample. -/
def int16LE (z : ℤ) : List ℕ :=
  [(z % 65536).toNat % 256, (z % 65536).toNat / 256]

/-- The data-block bytes produced by write:
np.rollaxis(out[:, ::-1], 2, 1).tostring(order=F). -/
def dataBytes (m : TSMeta) (u : ℕ → ℕ → ℕ → ℕ → ℚ) : List ℕ :=
  ((List.range (nbt m.n_y m.n_z m.n_t)).map
    (fun k => int16LE (writeFlat m.n_y m.n_z (outQ m u) k))).flatten

/-- write at the value level: the header record it packs (format tag 7,
counts, metadata scalars, the three per-component scale and offset
pairs, the descriptor length) together with every byte that follows the
70-byte header on disk: the descriptor text, then the data block. -/
def writeBTS (m : TSMeta) (u : ℕ → ℕ → ℕ → ℕ → ℚ) (desc : List ℕ) :
    HeaderV × List ℕ :=
  (⟨7, m.n_z, m.n_y, m.n_tower, m.n_t, m.dz, m.dy, m.dt, m.uhub, m.zhub, m.z0,
    sclOf m u 0, offOf m u 0, sclOf m u 1, offOf m u 1, sclOf m u 2, offOf m u 2,
    desc.length⟩,
   desc ++ dataBytes m u)

/-- One int16 sample from two little-endian bytes, as np.fromstring
reads it. -/
def bytesToInt16 (b0 b1 : ℕ) : ℤ :=
  if (b0 % 256 + 256 * (b1 % 256) : ℕ) < 32768 then
    ((b0 % 256 + 256 * (b1 % 256) : ℕ) : ℤ)
  else
    ((b0 % 256 + 256 * (b1 % 256) : ℕ) : ℤ) - 65536

/-- The k-th int16 of the byte stream read from position 70 onward. -/
def readCode (body : List ℕ) (k : ℕ) : ℤ :=
  bytesToInt16 (body.getD (2 * k) 0) (body.getD (2 * k + 1) 0)

/-- read after the header unpack, on the bytes that follow the 70-byte
header.  The commented-out fl.read(strlen) in the source means the
descriptor is never skipped: fl.read(2*nbt) starts at byte 70.  numpy
fromstring plus the reshape to [3, n_y, n_z, n_t] raise exactly when
fewer than 2*nbt bytes are available (modelled as none); otherwise the
tensor is reordered by the inverse permutation and dequantized with the
header scale and offset. -/
def readBody (h : HeaderV) (body : List ℕ) : Option (ℕ → ℕ → ℕ → ℕ → ℚ) :=
  if body.length < 2 * nbt h.n_y h.n_z h.n_t then none
  else
    some (fun c iz iy it =>
      dequantize (h.scl c) (h.off c) (readPerm h.n_y h.n_z (readCode body) c iz iy it))

/-- read composed onto the output of write: the header is recovered
field for field (the byte-level inverse is readHeaderBytes_packHeader),
and the rest of the file is consumed by readBody. -/
def readBTS (p : HeaderV × List ℕ) : Option (ℕ → ℕ → ℕ → ℕ → ℚ) :=
  readBody p.1 p.2

/-- A 1 by 1 grid with one time step. -/
def m1 : TSMeta := ⟨1, 1, 0, 1, 1, 1, 1, 1, 1, 1⟩

/-- The all-zero velocity field. -/
def u1 : ℕ → ℕ → ℕ → ℕ → ℚ := fun _ _ _ _ => 0

/-- A four-byte descriptor string. -/
def desc1 : List ℕ := [103, 101, 110, 46]

/-- A velocity field whose component c is constant with value c. -/
def u2 : ℕ → ℕ → ℕ → ℕ → ℚ := fun c _ _ _ => (c : ℚ)

/-- A two-byte descriptor string. -/
def desc2 : List ℕ := [65, 66]

/-- Header with a zero scale for component 0, for the C10 witness. -/
def hV0 : HeaderV := ⟨7, 1, 1, 0, 1, 1, 1, 1, 1, 1, 1, 0, -32768, 1, -32768, 1, -32768, 0⟩

/-- Evaluation helper for truncToZero on concrete rationals. -/
lemma truncToZero_eq_of (q : ℚ) (z : ℤ)
    (h : (0 ≤ q ∧ (z : ℚ) ≤ q ∧ q < z + 1) ∨ (q < 0 ∧ (z : ℚ) - 1 < q ∧ q ≤ z)) :
    truncToZero q = z := by
  unfold truncToZero
  rcases h with ⟨h0, h1, h2⟩ | ⟨h0, h1, h2⟩
  · rw [if_pos h0]
    exact Int.floor_eq_iff.mpr ⟨h1, by exact_mod_cast h2⟩
  · rw [if_neg (not_le.mpr h0)]
    exact Int.ceil_eq_iff.mpr ⟨by exact_mod_cast h1, h2⟩

/-- The offset of a degenerate component (min = max = c). -/
lemma u_off_const (c : ℚ) : u_off c c = -32768 - c := by
  rw [u_off, u_scl, if_pos rfl, intmin]
  push_cast
  ring

/-- A degenerate component sample always quantizes to -32768. -/
lemma quantize_const (c : ℚ) : quantize c c c = -32768 := by
  have hval : c * u_scl c c + u_off c c = -32768 := by
    rw [u_scl, if_pos rfl, u_off_const]
    ring
  rw [quantize, hval, truncToZero_eq_of _ (-32768) (Or.inr (by norm_num))]
  decide

/-- Scale and offset of a component with minimum 0 and maximum 1. -/
lemma scl_off_01 : u_scl 0 1 = 65536 ∧ u_off 0 1 = -32768 := by
  have h : u_scl 0 1 = 65536 := by
    rw [u_scl, if_neg (by norm_num), intrng]
    norm_num
  exact ⟨h, by rw [u_off, h, intmin]; push_cast; ring⟩

/-- Claim C3, the code evaluated at the failing input: with component
samples of minimum 0 and maximum 1, the minimum sample quantizes to
-32768 as the claim states, and a sample just below the maximum
quantizes to 32767, but the maximum sample itself quantizes to -32768,
not to 32767: the scale 65536 / (max - min) sends the maximum to
exactly 32768, which the int16 cast wraps around. -/
theorem C3_max_maps_to_intmin :
    quantize 0 1 0 = -32768 ∧ quantize 0 1 (65535 / 65536) = 32767 ∧
    quantize 0 1 1 = -32768 ∧ ¬ quantize 0 1 1 = 32767 := by
  obtain ⟨hs, ho⟩ := scl_off_01
  have h0 : quantize 0 1 0 = -32768 := by
    have hval : (0 : ℚ) * u_scl 0 1 + u_off 0 1 = -32768 := by rw [hs, ho]; ring
    rw [quantize, hval, truncToZero_eq_of _ (-32768) (Or.inr (by norm_num))]
    decide
  have hJ : quantize 0 1 (65535 / 65536) = 32767 := by
    have hval : (65535 / 65536 : ℚ) * u_scl 0 1 + u_off 0 1 = 32767 := by
      rw [hs, ho]; norm_num
    rw [quantize, hval, truncToZero_eq_of _ 32767 (Or.inl (by norm_num))]
    decide
  have h1 : quantize 0 1 1 = -32768 := by
    have hval : (1 : ℚ) * u_scl 0 1 + u_off 0 1 = 32768 := by rw [hs, ho]; ring
    rw [quantize, hval, truncToZero_eq_of _ 32768 (Or.inl (by norm_num))]
    decide
  exact ⟨h0, hJ, h1, by rw [h1]; decide⟩

/-- Claim C5, counterexample: the stored quantized value is not
round(x * scale + offset).  With component minimum 0 and maximum 65536
the scale is 1 and the offset -32768; the sample x = 40000.75 maps to
7232.75, which the cast truncates to 7232 while rounding gives 7233. -/
theorem C5_not_rounded :
    ¬ quantize 0 65536 (160003 / 4) =
      round ((160003 / 4 : ℚ) * u_scl 0 65536 + u_off 0 65536) := by
  have hs : u_scl 0 65536 = 1 := by
    rw [u_scl, if_neg (by norm_num), intrng]
    norm_num
  have ho : u_off 0 65536 = -32768 := by
    rw [u_off, hs, intmin]; push_cast; ring
  have hval : (160003 / 4 : ℚ) * u_scl 0 65536 + u_off 0 65536 = 7232 + 3 / 4 := by
    rw [hs, ho]; norm_num
  have hq : quantize 0 65536 (160003 / 4) = 7232 := by
    rw [quantize, hval, truncToZero_eq_of _ 7232 (Or.inl (by norm_num))]
    decide
  have hr : round (7232 + 3 / 4 : ℚ) = 7233 := by
    rw [round_eq, Int.floor_eq_iff]
    norm_num
  rw [hq, hval, hr]
  decide

/-- Claim C5, amended: the stored value is x * scale + offset truncated
toward zero and then wrapped modulo 2^16 into the signed 16-bit range:
it always lies in [-32768, 32767], is congruent modulo 65536 to the
truncated value, and equals the truncated value exactly when that value
is already in range; out-of-range values wrap, they are not clamped and
they are not an error. -/
theorem C5_trunc_then_wrap (mn mx x : ℚ) :
    -32768 ≤ quantize mn mx x ∧ quantize mn mx x ≤ 32767 ∧
    quantize mn mx x % 65536 = truncToZero (x * u_scl mn mx + u_off mn mx) % 65536 ∧
    (-32768 ≤ truncToZero (x * u_scl mn mx + u_off mn mx) →
      truncToZero (x * u_scl mn mx + u_off mn mx) ≤ 32767 →
      quantize mn mx x = truncToZero (x * u_scl mn mx + u_off mn mx)) := by
  unfold quantize wrap16
  omega

/-- Witness for C5_trunc_then_wrap at the degenerate component range
[5, 5] and sample 5, whose truncated value -32768 is in range. -/
theorem C5_trunc_then_wrap_witness : quantize 5 5 5 = -32768 := by
  have ht : truncToZero ((5 : ℚ) * u_scl 5 5 + u_off 5 5) = -32768 := by
    have hval : (5 : ℚ) * u_scl 5 5 + u_off 5 5 = -32768 := by
      rw [u_scl, if_pos rfl, u_off_const]
      ring
    rw [hval]
    exact truncToZero_eq_of _ (-32768) (Or.inr (by norm_num))
  have h := (C5_trunc_then_wrap 5 5 5).2.2.2
  rw [ht] at h
  rw [h (by decide) (by decide)]

/-- Digit decomposition of a disk position back into its indices. -/
lemma diskIdx_decomp (n_y n_z c iy jz it : ℕ)
    (hc : c < 3) (hiy : iy < n_y) (hjz : jz < n_z) :
    diskIdx n_y n_z c iy jz it % 3 = c ∧
    diskIdx n_y n_z c iy jz it / 3 % n_y = iy ∧
    diskIdx n_y n_z c iy jz it / 3 / n_y % n_z = jz ∧
    diskIdx n_y n_z c iy jz it / 3 / n_y / n_z = it := by
  have hy : 0 < n_y := Nat.pos_of_ne_zero (by omega)
  have hz : 0 < n_z := Nat.pos_of_ne_zero (by omega)
  have h3 : diskIdx n_y n_z c iy jz it / 3 = iy + n_y * (jz + n_z * it) := by
    rw [diskIdx, Nat.add_mul_div_left _ _ (by omega : 0 < 3), Nat.div_eq_of_lt hc, Nat.zero_add]
  have hdy : diskIdx n_y n_z c iy jz it / 3 / n_y = jz + n_z * it := by
    rw [h3, Nat.add_mul_div_left _ _ hy, Nat.div_eq_of_lt hiy, Nat.zero_add]
  refine ⟨?_, ?_, ?_, ?_⟩
  · rw [diskIdx, Nat.add_mul_mod_self_left, Nat.mod_eq_of_lt hc]
  · rw [h3, Nat.add_mul_mod_self_left, Nat.mod_eq_of_lt hiy]
  · rw [hdy, Nat.add_mul_mod_self_left, Nat.mod_eq_of_lt hjz]
  · rw [hdy, Nat.add_mul_div_left _ _ hz, Nat.div_eq_of_lt hjz, Nat.zero_add]

/-- Claim C6: on disk the component index varies fastest, then y, then z
reversed relative to the in-memory tensor (indexed component, z, y,
time), then time slowest: data-block position diskIdx c iy jz it holds
out[c, n_z-1-jz, iy, it]; and the decoder reordering is its exact
inverse, so every entry round-trips to the identical index assignment. -/
theorem C6_axis_order_roundtrip (n_y n_z : ℕ) (out : ℕ → ℕ → ℕ → ℕ → ℤ)
    (c iz iy jz it : ℕ) (hc : c < 3) (hiz : iz < n_z) (hiy : iy < n_y) (hjz : jz < n_z) :
    writeFlat n_y n_z out (diskIdx n_y n_z c iy jz it) = out c (n_z - 1 - jz) iy it ∧
    readPerm n_y n_z (writeFlat n_y n_z out) c iz iy it = out c iz iy it := by
  constructor
  · obtain ⟨h1, h2, h3, h4⟩ := diskIdx_decomp n_y n_z c iy jz it hc hiy hjz
    rw [writeFlat, h1, h2, h3, h4]
  · rw [readPerm]
    obtain ⟨h1, h2, h3, h4⟩ :=
      diskIdx_decomp n_y n_z c iy (n_z - 1 - iz) it hc hiy (by omega)
    rw [writeFlat, h1, h2, h3, h4]
    congr 1
    omega

/-- Witness for C6_axis_order_roundtrip on a 2 by 2 grid at component 1,
memory z-index 0, y-index 1, file z-row 1, time 0. -/
theorem C6_axis_order_roundtrip_witness :
    writeFlat 2 2 exOut (diskIdx 2 2 1 1 1 0) = exOut 1 0 1 0 ∧
    readPerm 2 2 (writeFlat 2 2 exOut) 1 0 1 0 = exOut 1 0 1 0 := by
  have h := C6_axis_order_roundtrip 2 2 exOut 1 0 1 1 0
    (by decide) (by decide) (by decide) (by decide)
  exact h

lemma toLE_length (k n : ℕ) : (toLE k n).length = k := by
  induction k generalizing n with
  | zero => rfl
  | succ k ih => simp [toLE, ih]

lemma fromLE_toLE (k n : ℕ) (h : n < 256 ^ k) : fromLE (toLE k n) = n := by
  induction k generalizing n with
  | zero =>
    simp [toLE, fromLE]
    omega
  | succ k ih =>
    have hd : n / 256 < 256 ^ k := by
      rw [Nat.div_lt_iff_lt_mul (by omega)]
      calc n < 256 ^ (k + 1) := h
        _ = 256 ^ k * 256 := by ring
    have := ih (n / 256) hd
    simp only [toLE, fromLE, List.foldr] at this ⊢
    omega

lemma packHeader_length (h : HeaderW) : (packHeader h).length = 70 := by
  simp [packHeader, toLE_length]

lemma take_toLE (k n : ℕ) (r : List ℕ) : (toLE k n ++ r).take k = toLE k n := by
  rw [List.take_append_of_le_length (le_of_eq (toLE_length k n).symm)]
  exact List.take_of_length_le (le_of_eq (toLE_length k n))

lemma drop_toLE (k n : ℕ) (r : List ℕ) : (toLE k n ++ r).drop k = r := by
  rw [List.drop_append_of_le_length (le_of_eq (toLE_length k n).symm)]
  rw [List.drop_eq_nil_of_le (le_of_eq (toLE_length k n)), List.nil_append]

/-- Helper: decoding a packed header recovers every field and leaves
the remainder of the buffer, when each field fits its declared width. -/
lemma readHeaderBytes_packHeader (h : HeaderW) (rest : List ℕ)
    (htag : h.tag < 256 ^ 2)
    (hnz : h.n_z < 256 ^ 4) (hny : h.n_y < 256 ^ 4) (hntw : h.n_tower < 256 ^ 4)
    (hnt : h.n_t < 256 ^ 4) (hdz : h.dz < 256 ^ 4) (hdy : h.dy < 256 ^ 4)
    (hdt : h.dt < 256 ^ 4) (huh : h.uhub < 256 ^ 4) (hzh : h.zhub < 256 ^ 4)
    (hz0 : h.z0 < 256 ^ 4) (hs0 : h.scl0 < 256 ^ 4) (ho0 : h.off0 < 256 ^ 4)
    (hs1 : h.scl1 < 256 ^ 4) (ho1 : h.off1 < 256 ^ 4) (hs2 : h.scl2 < 256 ^ 4)
    (ho2 : h.off2 < 256 ^ 4) (hsl : h.strlen < 256 ^ 4) :
    readHeaderBytes (packHeader h ++ rest) = some (h, rest) := by
  have hlen : (packHeader h ++ rest).length = 70 + rest.length := by
    rw [List.length_append, packHeader_length]
  simp only [readHeaderBytes]
  rw [if_neg (by rw [hlen]; omega)]
  obtain ⟨t, nz, ny, ntw, nt, dz, dy, dt, uh, zh, z0, s0, o0, s1, o1, s2, o2, sl⟩ := h
  simp only [packHeader, List.append_assoc]
  simp only [drop_toLE, take_toLE]
  rw [fromLE_toLE 2 t htag, fromLE_toLE 4 nz hnz, fromLE_toLE 4 ny hny,
    fromLE_toLE 4 ntw hntw, fromLE_toLE 4 nt hnt, fromLE_toLE 4 dz hdz,
    fromLE_toLE 4 dy hdy, fromLE_toLE 4 dt hdt, fromLE_toLE 4 uh huh,
    fromLE_toLE 4 zh hzh, fromLE_toLE 4 z0 hz0, fromLE_toLE 4 s0 hs0,
    fromLE_toLE 4 o0 ho0, fromLE_toLE 4 s1 hs1, fromLE_toLE 4 o1 ho1,
    fromLE_toLE 4 s2 hs2, fromLE_toLE 4 o2 ho2, fromLE_toLE 4 sl hsl]

/-- Claim C9: the header serializes to exactly 70 contiguous bytes with
the eighteen fields at their fixed offsets in declared order (int16
tag, int32 n_z, n_y, n_tower, n_t, float32 dz, dy, dt, uhub, zhub, z0,
the three float32 scale and offset pairs, int32 descriptor length), and
the decoder reads the identical fields back in the same order before
the data block, which immediately follows. -/
theorem C9_header_layout (h : HeaderW) (rest : List ℕ)
    (htag : h.tag < 256 ^ 2)
    (hnz : h.n_z < 256 ^ 4) (hny : h.n_y < 256 ^ 4) (hntw : h.n_tower < 256 ^ 4)
    (hnt : h.n_t < 256 ^ 4) (hdz : h.dz < 256 ^ 4) (hdy : h.dy < 256 ^ 4)
    (hdt : h.dt < 256 ^ 4) (huh : h.uhub < 256 ^ 4) (hzh : h.zhub < 256 ^ 4)
    (hz0 : h.z0 < 256 ^ 4) (hs0 : h.scl0 < 256 ^ 4) (ho0 : h.off0 < 256 ^ 4)
    (hs1 : h.scl1 < 256 ^ 4) (ho1 : h.off1 < 256 ^ 4) (hs2 : h.scl2 < 256 ^ 4)
    (ho2 : h.off2 < 256 ^ 4) (hsl : h.strlen < 256 ^ 4) :
    (packHeader h).length = 70 ∧
    readHeaderBytes (packHeader h ++ rest) = some (h, rest) :=
  ⟨packHeader_length h,
   readHeaderBytes_packHeader h rest htag hnz hny hntw hnt hdz hdy hdt huh hzh
     hz0 hs0 ho0 hs1 ho1 hs2 ho2 hsl⟩

/-- Witness for C9_header_layout at a concrete header with empty
remainder. -/
theorem C9_header_layout_witness :
    (packHeader exHdr).length = 70 ∧
    readHeaderBytes (packHeader exHdr ++ []) = some (exHdr, []) := by
  exact C9_header_layout exHdr []
    (by decide) (by decide) (by decide) (by decide) (by decide) (by decide)
    (by decide) (by decide) (by decide) (by decide) (by decide) (by decide)
    (by decide) (by decide) (by decide) (by decide) (by decide) (by decide)

/-- Claim C4, counterexample: decoding a 70-byte header whose format
tag is 99 rather than the format constant 7 succeeds; read stores the
tag into a discarded variable and never compares it, so a tag mismatch
does not make decoding fail. -/
theorem C4_tag_not_checked :
    ¬ hdr99.tag = 7 ∧ readHeaderBytes (packHeader hdr99) = some (hdr99, []) := by
  constructor
  · decide
  · have h := readHeaderBytes_packHeader hdr99 []
      (by decide) (by decide) (by decide) (by decide) (by decide) (by decide)
      (by decide) (by decide) (by decide) (by decide) (by decide) (by decide)
      (by decide) (by decide) (by decide) (by decide) (by decide) (by decide)
    rw [← List.append_nil (packHeader hdr99)]
    exact h

/-- Claim C4, amended: header decoding fails exactly when the buffer is
shorter than 70 bytes (struct.unpack raises, no partial recovery); the
format_tag field is read but never validated, so a tag mismatch alone
never causes failure. -/
theorem C4_fail_iff_short (buf : List ℕ) :
    readHeaderBytes buf = none ↔ buf.length < 70 := by
  simp only [readHeaderBytes]
  split
  · simp_all
  · simp_all

/-- Witness for C4_fail_iff_short on the empty buffer. -/
theorem C4_fail_iff_short_witness : readHeaderBytes [] = none :=
  (C4_fail_iff_short []).mpr (by decide)

/-- Every component of u1 on m1 has minimum and maximum 0. -/
lemma compMM1 (c : ℕ) : compMin m1 u1 c = 0 ∧ compMax m1 u1 c = 0 := by
  constructor <;>
    simp [compMin, compMax, compSamples, listMin, listMax, m1, u1]

/-- Every quantized sample of u1 on m1 is -32768. -/
lemma outQ1 (c iz iy it : ℕ) : outQ m1 u1 c iz iy it = -32768 := by
  obtain ⟨hmn, hmx⟩ := compMM1 c
  rw [outQ, hmn, hmx]
  exact quantize_const 0

/-- The data block of u1 on m1, byte for byte. -/
lemma dataBytes1 : dataBytes m1 u1 = [0, 128, 0, 128, 0, 128] := by
  have hwf : ∀ k, writeFlat m1.n_y m1.n_z (outQ m1 u1) k = -32768 :=
    fun k => outQ1 _ _ _ _
  simp only [dataBytes, hwf]
  decide

/-- Component c of u2 on m1 has minimum and maximum c. -/
lemma compMM2 (c : ℕ) : compMin m1 u2 c = c ∧ compMax m1 u2 c = c := by
  constructor <;>
    simp [compMin, compMax, compSamples, listMin, listMax, m1, u2]

/-- Every quantized sample of u2 on m1 is -32768. -/
lemma outQ2 (c iz iy it : ℕ) : outQ m1 u2 c iz iy it = -32768 := by
  obtain ⟨hmn, hmx⟩ := compMM2 c
  rw [outQ, hmn, hmx]
  exact quantize_const c

/-- The data block of u2 on m1, byte for byte. -/
lemma dataBytes2 : dataBytes m1 u2 = [0, 128, 0, 128, 0, 128] := by
  have hwf : ∀ k, writeFlat m1.n_y m1.n_z (outQ m1 u2) k = -32768 :=
    fun k => outQ2 _ _ _ _
  simp only [dataBytes, hwf]
  decide

/-- Helper: when at least 2*nbt bytes follow the header, readBody
returns the dequantized reordered tensor. -/
lemma readBody_eval (h : HeaderV) (body : List ℕ)
    (hlen : 2 * nbt h.n_y h.n_z h.n_t ≤ body.length) :
    readBody h body = some (fun c iz iy it =>
      dequantize (h.scl c) (h.off c)
        (readPerm h.n_y h.n_z (readCode body) c iz iy it)) := by
  simp only [readBody]
  rw [if_neg (by omega)]

/-- Claim C1, the code evaluated at the failing input: encoding the
all-zero 3 by 1 by 1 by 1 field with a four-byte descriptor and
decoding the resulting file returns 58727 at index (0,0,0,0), not the
original 0, although the component is constant (max - min = 0) so the
claim demands exact equality: the decoder dequantizes the first two
descriptor bytes 103 and 101 as a sample (it never skips the
descriptor), and independently the scale 65536/(max-min) would wrap any
maximum sample of a non-constant component to -32768. -/
theorem C1_roundtrip_corrupted :
    (readBTS (writeBTS m1 u1 desc1)).map (fun f => f 0 0 0 0) = some 58727 ∧
    u1 0 0 0 0 = 0 ∧ compMax m1 u1 0 - compMin m1 u1 0 = 0 := by
  obtain ⟨hmn, hmx⟩ := compMM1 0
  refine ⟨?_, rfl, by rw [hmn, hmx]; ring⟩
  have hscl : sclOf m1 u1 0 = 1 := by rw [sclOf, hmn, hmx, u_scl, if_pos rfl]
  have hoff : offOf m1 u1 0 = -32768 := by
    rw [offOf, hmn, hmx, u_off_const]; ring
  have hread := readBody_eval (writeBTS m1 u1 desc1).1 (writeBTS m1 u1 desc1).2
    (by rw [show (writeBTS m1 u1 desc1).2 = desc1 ++ dataBytes m1 u1 from rfl,
      dataBytes1]; decide)
  have hread2 : readBTS (writeBTS m1 u1 desc1) = _ := hread
  rw [hread2]
  simp only [Option.map_some']
  rw [show (writeBTS m1 u1 desc1).1.scl 0 = 1 from hscl]
  rw [show (writeBTS m1 u1 desc1).1.off 0 = -32768 from hoff]
  rw [show readPerm (writeBTS m1 u1 desc1).1.n_y (writeBTS m1 u1 desc1).1.n_z
      (readCode (writeBTS m1 u1 desc1).2) 0 0 0 0 = 25959 by
    rw [show (writeBTS m1 u1 desc1).2 = desc1 ++ dataBytes m1 u1 from rfl, dataBytes1]
    decide]
  rw [show dequantize 1 (-32768) 25959 = (58727 : ℚ) by
    rw [dequantize]; push_cast; ring]

/-- Claim C2, the code evaluated at the failing input: the file written
for the field with constant component values 0, 1, 2 and the two-byte
descriptor [65, 66] starts its post-header bytes with that descriptor,
yet the decoder takes its first int16 sample from those two descriptor
bytes (value 16961 = 65 + 256 * 66) and dequantizes it to 49729 at
index (0,0,0,0) in place of the original 0: the data block is read from
byte 70, not from byte 70 + descriptor_length. -/
theorem C2_descriptor_read_as_data :
    (writeBTS m1 u2 desc2).2.take 2 = desc2 ∧
    readCode (writeBTS m1 u2 desc2).2 0 = bytesToInt16 65 66 ∧
    (readBTS (writeBTS m1 u2 desc2)).map (fun f => f 0 0 0 0) = some 49729 ∧
    u2 0 0 0 0 = 0 := by
  obtain ⟨hmn, hmx⟩ := compMM2 0
  refine ⟨?_, ?_, ?_, rfl⟩
  · rw [show (writeBTS m1 u2 desc2).2 = desc2 ++ dataBytes m1 u2 from rfl, dataBytes2]
    decide
  · rw [show (writeBTS m1 u2 desc2).2 = desc2 ++ dataBytes m1 u2 from rfl, dataBytes2]
    decide
  · have hscl : sclOf m1 u2 0 = 1 := by
      rw [sclOf, hmn, hmx, u_scl, if_pos rfl]
    have hoff : offOf m1 u2 0 = -32768 := by
      rw [offOf, hmn, hmx, u_off_const]
      norm_num
    have hread := readBody_eval (writeBTS m1 u2 desc2).1 (writeBTS m1 u2 desc2).2
      (by rw [show (writeBTS m1 u2 desc2).2 = desc2 ++ dataBytes m1 u2 from rfl,
        dataBytes2]; decide)
    have hread2 : readBTS (writeBTS m1 u2 desc2) = _ := hread
    rw [hread2]
    simp only [Option.map_some']
    rw [show (writeBTS m1 u2 desc2).1.scl 0 = 1 from hscl]
    rw [show (writeBTS m1 u2 desc2).1.off 0 = -32768 from hoff]
    rw [show readPerm (writeBTS m1 u2 desc2).1.n_y (writeBTS m1 u2 desc2).1.n_z
        (readCode (writeBTS m1 u2 desc2).2) 0 0 0 0 = 16961 by
      rw [show (writeBTS m1 u2 desc2).2 = desc2 ++ dataBytes m1 u2 from rfl, dataBytes2]
      decide]
    rw [show dequantize 1 (-32768) 16961 = (49729 : ℚ) by
      rw [dequantize]; push_cast; ring]

/-- Claim C7, the code evaluated at the failing input: a file whose
header is the valid header written for u2 with the four-byte descriptor
desc1, but whose data block holds only 4 of the required 6 bytes, is
decoded without any error: the decoder reads its 2*nbt bytes from byte
70 onward, so the descriptor bytes stand in for the missing data and a
tensor is returned silently. -/
theorem C7_truncation_not_detected :
    ((dataBytes m1 u2).take 4).length < 2 * nbt m1.n_y m1.n_z m1.n_t ∧
    (readBody (writeBTS m1 u2 desc1).1 (desc1 ++ (dataBytes m1 u2).take 4)).isSome
      = true := by
  constructor
  · rw [dataBytes2]
    decide
  · rw [readBody_eval _ _ (by rw [dataBytes2]; decide)]
    rfl

/-- Claim C10: for any header carrying scale[i] = 0 for a component i
and any sufficiently long byte stream, the decoder succeeds and its
entry for component i is the unconditional dequantization division by
that zero scale: read validates nothing about the quantization
parameters and raises no error. -/
theorem C10_zero_scale_no_error (h : HeaderV) (body : List ℕ) (i : ℕ)
    (hscl : h.scl i = 0) (hlen : 2 * nbt h.n_y h.n_z h.n_t ≤ body.length) :
    ∃ f, readBody h body = some f ∧
      f i 0 0 0 = dequantize 0 (h.off i)
        (readPerm h.n_y h.n_z (readCode body) i 0 0 0) := by
  refine ⟨_, readBody_eval h body hlen, ?_⟩
  rw [hscl]

/-- Witness for C10_zero_scale_no_error on a six-byte all-zero stream. -/
theorem C10_zero_scale_no_error_witness :
    ∃ f, readBody hV0 [0, 0, 0, 0, 0, 0] = some f ∧
      f 0 0 0 0 = dequantize 0 (hV0.off 0)
        (readPerm hV0.n_y hV0.n_z (readCode [0, 0, 0, 0, 0, 0]) 0 0 0 0) :=
  C10_zero_scale_no_error hV0 [0, 0, 0, 0, 0, 0] 0 rfl (by decide)

end Aerodyn

